import Mathlib

/-!
Verification of the AudifyAI audit orchestration engine (FastAPI backend).

Shallow embedding of the core of the repository:
  - `backend/app/services/gemini_service.py` (`GeminiService`): response parsing,
    per-criterion auditing, the combined-call optimisation with fallback, and the
    parallel fan-out over files;
  - `backend/app/routers/audit.py`: score aggregation (`_calculate_overall_score`),
    the streaming progress generator (`audit_files_stream.generate_progress_stream`),
    and the job-tracker polling endpoints (`get_audit_status`, `get_audit_result`).

Modelling conventions:
  - The external Gemini oracle is opaque: a per-file environment (`FileEnv`) records,
    for each possible call, whether the call raises and what text it returns.  The
    instruction sent to the oracle is a pure function of the criterion name and the
    custom-prompt table, so single-criterion calls are keyed by the criterion name.
  - Python exceptions are `Except String`, Python `dict`s are association lists with
    first-key-wins lookup, Python `float` arithmetic is modelled over `ℚ` (all the
    numbers involved are small decimals), and strings are processed on `List Char`,
    matching Python `str` semantics for the ASCII inputs the claims are about.
  - Python `str.lower`, `str.strip` and `re` class `\d` are modelled on their ASCII
    fragments, which covers every token the parser scans for.
-/

namespace AudifyAI

/-! ## Character and string utilities (models of the Python string operations used) -/

/-- Model of the Python substring test `pat in s` on character lists: some tail
of `l` starts with `pat`. -/
def containsSub (pat : List Char) : List Char → Bool
  | [] => pat.isEmpty
  | c :: cs => pat.isPrefixOf (c :: cs) || containsSub pat cs

/-- Model of Python `str.strip()`: drop whitespace from both ends (ASCII fragment). -/
def stripChars (l : List Char) : List Char :=
  ((l.dropWhile Char.isWhitespace).reverse.dropWhile Char.isWhitespace).reverse

/-- Model of Python `str.strip()` on `String`. -/
def pyStrip (s : String) : String :=
  String.mk (stripChars s.data)

/-- Model of Python `str.lower()` (ASCII fragment): lowercase every character. -/
def lowerChars (l : List Char) : List Char :=
  l.map Char.toLower

/-- Model of Python `text.split(chr(10))`: split at every newline, keeping empty parts. -/
def splitLines : List Char → List (List Char)
  | [] => [[]]
  | c :: cs =>
    if c = '\n' then [] :: splitLines cs
    else
      match splitLines cs with
      | [] => [[c]]
      | h :: t => (c :: h) :: t

/-- Numeric value of a digit string, as Python `int` of the digits. -/
def digitsVal (l : List Char) : ℕ :=
  l.foldl (fun n c => 10 * n + (c.toNat - '0'.toNat)) 0

/-- Model of `re.search` with the percentage pattern of `_parse_response`
(`gemini_service.py` line 122): leftmost position where a maximal digit run is
immediately followed by a percent sign; returns the digit run.  Greedy `\d+`
with backtracking can only succeed on the maximal run (a shorter run is
followed by another digit), and on failure the scan restarts one position to
the right, which is what the recursion does. -/
def findPercent : List Char → Option (List Char)
  | [] => none
  | c :: cs =>
    if c.isDigit ∧ ((c :: cs).dropWhile Char.isDigit).head? = some '%' then
      some ((c :: cs).takeWhile Char.isDigit)
    else findPercent cs

/-- Model of Python `s.replace(pct, empty)` for the one-character pattern used by
`_calculate_overall_score`: remove every percent sign. -/
def removePercent (s : String) : String :=
  String.mk (s.data.filter (fun c => c ≠ '%'))

/-- Syntactic stage of Python `float(s)` on the decimal forms that can reach it
here (optional surrounding whitespace, optional sign, digits with an optional
fractional part; exponent, underscore, infinity and nan forms do not occur in
the audited data).  Returns the sign, the integer digits and the fractional
digits, or `none` where Python raises `ValueError`. -/
def decimalParts? (s : String) : Option (Bool × List Char × List Char) :=
  let t := stripChars s.data
  let signed : Bool × List Char :=
    match t with
    | '-' :: cs => (true, cs)
    | '+' :: cs => (false, cs)
    | cs => (false, cs)
  let ip := signed.2.takeWhile Char.isDigit
  let rest := signed.2.dropWhile Char.isDigit
  match rest with
  | [] => if ip.isEmpty then none else some (signed.1, ip, [])
  | '.' :: fp =>
    if fp.all Char.isDigit && !(ip.isEmpty && fp.isEmpty) then
      some (signed.1, ip, fp)
    else none
  | _ => none

/-- Numeric value of parsed decimal parts. -/
def decimalVal (t : Bool × List Char × List Char) : ℚ :=
  let v := (digitsVal t.2.1 : ℚ) + (digitsVal t.2.2 : ℚ) / ((10 : ℚ) ^ t.2.2.length)
  if t.1 then -v else v

/-- Model of Python `float(s)`: syntactic analysis (`decimalParts?`) followed by
evaluation (`decimalVal`). -/
def parseDecimal? (s : String) : Option ℚ :=
  (decimalParts? s).map decimalVal

/-! ## Response Parser (`GeminiService._parse_response`, gemini_service.py lines 104-141) -/

/-- One keyword line test of the reasoning loop (line 133): the lowercased line
contains one of the four scan words as a substring. -/
def keywordLine (line : List Char) : Bool :=
  containsSub "yes".data (lowerChars line) || containsSub "no".data (lowerChars line) ||
    containsSub "confidence".data (lowerChars line) || containsSub "%".data (lowerChars line)

/-- The reasoning-extraction loop of `_parse_response` (lines 127-137), with the
`found_verdict` flag threaded explicitly. -/
def reasoningLoop : List (List Char) → Bool → List (List Char)
  | [], _ => []
  | line :: rest, found =>
    if keywordLine line then reasoningLoop rest true
    else if found && !(stripChars line).isEmpty then stripChars line :: reasoningLoop rest found
    else reasoningLoop rest found

/-- `GeminiService._parse_response`: extract (verdict, confidence, reasoning) from
free oracle text.  Verdict: "Yes" if the lowercased text contains "yes", else "No"
if it contains "no", else "Unknown".  Confidence: first digit-run-percent match,
else "N/A".  Reasoning: the stripped non-keyword lines after the first keyword
line, space-joined; the whole text if none. -/
def parseResponse (text : String) : String × String × String :=
  let chars := text.data
  let lower := lowerChars chars
  let verdict :=
    if containsSub "yes".data lower then "Yes"
    else if containsSub "no".data lower then "No"
    else "Unknown"
  let confidence :=
    match findPercent chars with
    | some ds => String.mk (ds ++ ['%'])
    | none => "N/A"
  let rl := reasoningLoop (splitLines chars) false
  let reasoning := if rl.isEmpty then text else String.mk (List.intercalate [' '] rl)
  (verdict, confidence, reasoning)

/-- Spec-side predicate for the integer-percentage pattern of the claim: the
text contains, somewhere, a non-empty digit run immediately followed by a
percent sign. -/
def hasPercentPattern (l : List Char) : Prop :=
  ∃ p ds q, l = p ++ ds ++ '%' :: q ∧ ds ≠ [] ∧ ∀ c ∈ ds, c.isDigit = true

/-! ## Data model of the per-criterion audit records -/

/-- One audit record as built by `GeminiService` (the result dict with keys
parameter / verdict / confidence / reasoning; `AuditResult` in models/audit.py
mirrors these fields). -/
structure ARecord where
  parameter : String
  verdict : String
  confidence : String
  reasoning : String
deriving Repr, DecidableEq

/-- One entry of the decoded `results` list of a combined-mode JSON response:
either not a JSON object (discarded by the `isinstance` check, line 198) or an
object given as a field table (Python dict keys are unique; lookup is
first-key-wins). -/
inductive JEntry where
  | notDict : JEntry
  | obj : List (String × String) → JEntry
deriving Repr, DecidableEq

/-- Membership of a field name in a decoded record (`key in result`). -/
def JEntry.hasKey : JEntry → String → Bool
  | .notDict, _ => false
  | .obj fs, k => fs.any (fun kv => kv.1 == k)

/-- Field access `result[key]` for a present key (first binding wins, as in a dict). -/
def JEntry.get : JEntry → String → String
  | .notDict, _ => ""
  | .obj fs, k => ((fs.find? (fun kv => kv.1 == k)).map Prod.snd).getD ""

/-- Field access `result.get(key, default)` (line 203). -/
def JEntry.getD : JEntry → String → String → String
  | .notDict, _, d => d
  | .obj fs, k, d => ((fs.find? (fun kv => kv.1 == k)).map Prod.snd).getD d

/-- Outcome of the combined-mode oracle call followed by JSON decoding
(lines 177-194): the call itself raised, or `json.loads` failed (including the
shapes whose decode cannot be used, which reach the same generic fallback), or
a decoded object whose `results` list (default `[]`) is given. -/
inductive CombinedResult where
  | callFail : String → CombinedResult
  | decodeFail : CombinedResult
  | parsed : List JEntry → CombinedResult

/-- Per-file oracle environment for one batch run: whether the file read
succeeds (deterministic within the run), the outcome of the combined call as a
function of the combined instruction, and the outcome of each single-criterion
call.  Single calls are keyed by the criterion name because the instruction
sent is a pure function of the criterion and the custom-prompt table. -/
structure FileEnv where
  readable : Bool
  combinedCall : String → CombinedResult
  single : String → Except String String

/-- Truthiness of the optional `custom_prompts` dict (`if custom_prompts:` on
line 162): present and non-empty. -/
def truthyPrompts : Option (List (String × String)) → Bool
  | none => false
  | some l => !l.isEmpty

/-- Modelled from the spec: the repository calls `get_combined_prompt` from
`prompts.audit_prompts` (gemini_service.py line 167), but that function is
absent from the source tree; only its caller is.  Per spec section 6,
`resolveCombined(ids[]) -> single instruction text` is a pure, side-effect-free
lookup that never fails, so combined-instruction synthesis is modelled as a
total function of the requested criteria. -/
def getCombinedPrompt (params : List String) : String :=
  String.intercalate ", " params

/-! ## File Audit Pipeline (`GeminiService`, gemini_service.py) -/

/-- `GeminiService._audit_parameter` (lines 54-89): one oracle call for one
criterion; on success the stripped text is parsed, on any failure an
Unknown/N-slash-A placeholder for that criterion is returned. -/
def auditParameter (env : FileEnv) (p : String) : ARecord :=
  match env.single p with
  | .ok raw =>
    let vcr := parseResponse (pyStrip raw)
    ⟨p, vcr.1, vcr.2.1, vcr.2.2⟩
  | .error e => ⟨p, "Unknown", "N/A", "Error: " ++ e⟩

/-- `GeminiService.audit_file` (lines 24-52): read the file, then process each
requested criterion in order.  A failing file read is logged and re-raised
(line 52); per-criterion failures are absorbed by `_audit_parameter`.  The
custom-prompt table only changes the instruction text, which the oracle
environment abstracts. -/
def auditFile (env : FileEnv) (params : List String)
    (cp : Option (List (String × String))) : Except String (List ARecord) :=
  if env.readable then .ok (params.map (auditParameter env))
  else .error ("Error auditing file" ++ (cp.map (fun _ => "")).getD "")

/-- The filter of the combined-mode record loop (line 198): a decoded record is
kept when it is an object containing all four of parameter, verdict,
confidence and reasoning. -/
def keepRecord (e : JEntry) : Bool :=
  e.hasKey "parameter" && e.hasKey "verdict" && e.hasKey "confidence" && e.hasKey "reasoning"

/-- The record constructor of the combined-mode loop (lines 199-204). -/
def formatRecord (e : JEntry) : ARecord :=
  ⟨e.get "parameter", e.get "verdict", e.get "confidence", e.getD "reasoning" ""⟩

/-- The combined-mode record loop (lines 196-204): keep the complete records, in
response order. -/
def formatResults (rs : List JEntry) : List ARecord :=
  (rs.filter keepRecord).map formatRecord

/-- The placeholder synthesised for a requested criterion absent from the
combined response (lines 208-215). -/
def missingPlaceholder (p : String) : ARecord :=
  ⟨p, "Unknown", "N/A", "Parameter not processed in combined response"⟩

/-- The missing-criterion fill of the combined path (lines 206-215): append one
placeholder for each requested criterion not named by any kept record. -/
def fillMissing (params : List String) (formatted : List ARecord) : List ARecord :=
  formatted ++
    (params.filter (fun p => !((formatted.map ARecord.parameter).contains p))).map
      missingPlaceholder

/-- `GeminiService.audit_file_optimized` (lines 143-230).  An unreadable file
raises out of the fallback as well (the outer handler calls `audit_file`, which
re-raises its own read failure).  A truthy custom-prompt table skips combined
mode (line 162).  Otherwise the combined call is made: a raised call or a JSON
decode failure falls back to `audit_file`; a decoded response is filtered,
formatted and filled. -/
def auditFileOptimized (env : FileEnv) (params : List String)
    (cp : Option (List (String × String))) : Except String (List ARecord) :=
  if env.readable then
    if truthyPrompts cp then auditFile env params cp
    else
      match env.combinedCall (getCombinedPrompt params) with
      | .callFail _ => auditFile env params cp
      | .decodeFail => auditFile env params cp
      | .parsed rs => .ok (fillMissing params (formatResults rs))
  else auditFile env params cp

/-- The per-file error records built by the fan-out coordinator for a file whose
pipeline raised (lines 250-262). -/
def errorRecords (params : List String) (msg : String) : List ARecord :=
  params.map (fun p => ⟨p, "Unknown", "N/A", "Error processing file: " ++ msg⟩)

/-- `GeminiService.audit_multiple_files_parallel` (lines 232-266): run the
optimized pipeline for every file; `asyncio.gather(..., return_exceptions=True)`
turns a raising pipeline into per-criterion error records for that file only.
Concurrency only affects timing; the gathered list is aligned to the input
order. -/
def auditMultipleFilesParallel (envs : List FileEnv) (params : List String)
    (cp : Option (List (String × String))) : List (List ARecord) :=
  envs.map (fun env =>
    match auditFileOptimized env params cp with
    | .ok rs => rs
    | .error e => errorRecords params e)

/-- Whether an `Except` is a success (Python: the call returned, did not raise). -/
def isOkE : Except String (List ARecord) → Bool
  | .ok _ => true
  | .error _ => false

/-- Decidable equality of pipeline outcomes, for evaluating the theorems on
concrete runs. -/
instance instDecEqExcept {ε α : Type} [DecidableEq ε] [DecidableEq α] :
    DecidableEq (Except ε α) := fun a b =>
  match a, b with
  | .error x, .error y =>
    if h : x = y then isTrue (by rw [h])
    else isFalse (fun hc => h (by injection hc))
  | .error _, .ok _ => isFalse (fun hc => Except.noConfusion hc)
  | .ok _, .error _ => isFalse (fun hc => Except.noConfusion hc)
  | .ok x, .ok y =>
    if h : x = y then isTrue (by rw [h])
    else isFalse (fun hc => h (by injection hc))

/-! ## Score Aggregator (`_calculate_overall_score`, audit.py lines 721-746) -/

/-- One loop step of `_calculate_overall_score` on the (total, valid) accumulator:
a Yes verdict adds its parsed confidence (100 when unparseable) and counts, a No
verdict only counts, anything else is skipped. -/
def scoreStep (acc : ℚ × ℕ) (r : ARecord) : ℚ × ℕ :=
  if r.verdict = "Yes" then
    match parseDecimal? (removePercent r.confidence) with
    | some c => (acc.1 + c, acc.2 + 1)
    | none => (acc.1 + 100, acc.2 + 1)
  else if r.verdict = "No" then (acc.1, acc.2 + 1)
  else acc

/-- `_calculate_overall_score`: 0 for an empty list, otherwise total over valid
when any verdict counted, else 0. -/
def calculateOverallScore (rs : List ARecord) : ℚ :=
  if rs.isEmpty then 0
  else if 0 < (rs.foldl scoreStep (0, 0)).2 then
    (rs.foldl scoreStep (0, 0)).1 / ((rs.foldl scoreStep (0, 0)).2 : ℚ)
  else 0

/-- Spec-side reading of the score rule (spec section 4.4), for comparison with
the source function: the arithmetic mean, over Affirmative ("Yes") and Negative
("No") verdicts only, of parsed-confidence-else-100 for Affirmative and 0 for
Negative; 0 when no such verdict exists. -/
def confidencePct (r : ARecord) : ℚ :=
  (parseDecimal? (removePercent r.confidence)).getD 100

/-- Spec-side score definition (see `confidencePct`). -/
def scoreSpec (rs : List ARecord) : ℚ :=
  if (rs.filter (fun r => r.verdict = "Yes" ∨ r.verdict = "No")).isEmpty then 0
  else ((rs.filter (fun r => r.verdict = "Yes" ∨ r.verdict = "No")).map
      (fun r => if r.verdict = "Yes" then confidencePct r else 0)).sum /
    ((rs.filter (fun r => r.verdict = "Yes" ∨ r.verdict = "No")).length : ℚ)

/-! ## Progress Streamer (`audit_files_stream.generate_progress_stream`, audit.py lines 305-419) -/

/-- One server-sent event of the streaming endpoint, carrying the claim-relevant
payload fields (index, name, score); timing fields, result counts and detailed
verdict payloads are omitted. -/
inductive SEvent where
  | started : String → ℕ → ℕ → SEvent
  | fileStarted : ℕ → String → ℚ → SEvent
  | fileCompleted : ℕ → String → ℚ → SEvent
  | fileError : ℕ → String → String → SEvent
  | completed : ℕ → ℕ → SEvent
  | errorEvent : String → SEvent
deriving Repr, DecidableEq

/-- The resolution event for one file (lines 335-393): `file_completed` with the
aggregated score when the pipeline task returned, `file_error` with the message
when it raised. -/
def resolutionEvent (params : List String) (cp : Option (List (String × String)))
    (idx : ℕ) (f : String × FileEnv) : SEvent :=
  match auditFileOptimized f.2 params cp with
  | .ok rs => .fileCompleted idx f.1 (calculateOverallScore rs)
  | .error e => .fileError idx f.1 e

/-- `generate_progress_stream` (lines 305-419) as the sequence of emitted events.
The first loop (lines 321-332) emits one `file_started` per file in submission
order while creating the tasks; the second loop (lines 335-393) awaits the tasks
in submission order, so each resolution event is emitted in submission order no
matter when the concurrently running tasks actually finish -- `completionOrder`
is an arbitrary schedule of task finishing, and the output does not depend on
it.  The body never raises in this deterministic model, so the `error` event of
the outer handler (line 416) is not emitted. -/
def generateProgressStream (auditId : String) (files : List (String × FileEnv))
    (params : List String) (cp : Option (List (String × String)))
    (completionOrder : List ℕ) : List SEvent :=
  let n := files.length
  let startEvents := files.enum.map (fun p => SEvent.fileStarted p.1 p.2.1 ((p.1 : ℚ) / (n : ℚ) * 100))
  let resolutions := files.enum.map (fun p => resolutionEvent params cp p.1 p.2)
  let _ := completionOrder
  SEvent.started auditId n params.length :: (startEvents ++ (resolutions ++ [SEvent.completed n n]))

/-- The per-file resolution events among the stream: index of a `file_completed`
or `file_error` event. -/
def resIdx? : SEvent → Option ℕ
  | .fileCompleted i _ _ => some i
  | .fileError i _ _ => some i
  | .started _ _ _ => none
  | .fileStarted _ _ _ => none
  | .completed _ _ => none
  | .errorEvent _ => none

/-- The `file_started` events among the stream: index of such an event. -/
def startIdx? : SEvent → Option ℕ
  | .fileStarted i _ _ => some i
  | .started _ _ _ => none
  | .fileCompleted _ _ _ => none
  | .fileError _ _ _ => none
  | .completed _ _ => none
  | .errorEvent _ => none

/-- Whether an event is a per-file resolution event. -/
def isResolution (e : SEvent) : Bool :=
  (resIdx? e).isSome

/-- The first per-file resolution event of an event sequence. -/
def firstResolution (evs : List SEvent) : Option SEvent :=
  evs.find? isResolution

/-! ## Job Tracker polling (`get_audit_status` / `get_audit_result`, audit.py lines 493-528) -/

/-- One stored job record (the `audit_jobs[job_id]` dict, lines 457-468).  The
attached results payload is the per-file record lists of the finished batch. -/
structure JobState where
  status : String
  progress : ℚ
  totalFiles : ℕ
  processedFiles : ℕ
  currentFile : Option String
  results : Option (List (List ARecord))
  error : Option String
  startedAt : ℚ
  completedAt : Option ℚ
  processingTime : Option ℚ
deriving DecidableEq

/-- The in-memory job table (`audit_jobs`), a dict keyed by job id. -/
abbrev JobStore := List (String × JobState)

/-- Dict lookup `audit_jobs[job_id]` (first binding wins). -/
def lookupJob (st : JobStore) (id : String) : Option JobState :=
  ((st.find? (fun kv => kv.1 == id)).map Prod.snd)

/-- In-place mutation of the stored record for one job id. -/
def setJob (st : JobStore) (id : String) (j : JobState) : JobStore :=
  st.map (fun kv => if kv.1 == id then (kv.1, j) else kv)

/-- `get_audit_status` (lines 493-507): 404 on an unknown id; otherwise, for a
processing job, write the live elapsed time into the processing_time field of
the stored record (line 505 assigns into the shared dict entry) and return
it; for a finished job, return the record unchanged.  Returns the response and
the job table after the call. -/
def getAuditStatus (st : JobStore) (id : String) (now : ℚ) :
    Except String JobState × JobStore :=
  match lookupJob st id with
  | none => (.error "Job not found", st)
  | some job =>
    if job.status = "processing" then
      let job1 := { job with processingTime := some (now - job.startedAt) }
      (.ok job1, setJob st id job1)
    else (.ok job, st)

/-- `get_audit_result` (lines 509-528): 404 on an unknown id, 202 when the job
is not completed, 500 when completed without attached results, otherwise the
results.  The job table is returned unchanged in every case. -/
def getAuditResult (st : JobStore) (id : String) :
    Except (ℕ × String) (List (List ARecord)) × JobStore :=
  match lookupJob st id with
  | none => (.error (404, "Job not found"), st)
  | some job =>
    if job.status = "completed" then
      match job.results with
      | none => (.error (500, "Job completed but no results available"), st)
      | some rs => (.ok rs, st)
    else (.error (202, "Results not ready yet"), st)

/-! ## Concrete batch-run environments used to instantiate the theorems -/

/-- A readable file whose combined response decodes but answers for criterion p2
(requested) and p3 (never requested) while omitting p1. -/
def envC1 : FileEnv :=
  ⟨true,
    fun _ => .parsed
      [JEntry.obj [("parameter", "p2"), ("verdict", "Yes"), ("confidence", "90%"), ("reasoning", "ok")],
        JEntry.obj [("parameter", "p3"), ("verdict", "Yes"), ("confidence", "90%"), ("reasoning", "ok")]],
    fun _ => .error "unused"⟩

/-- A file whose read raises (for example, the path disappeared between
validation and processing). -/
def envUnreadable : FileEnv :=
  ⟨false, fun _ => .decodeFail, fun _ => .error "io"⟩

/-- A readable file whose combined response fails to decode and whose
single-criterion calls fail for p1 and answer for p2. -/
def envFallback : FileEnv :=
  ⟨true, fun _ => .decodeFail,
    fun p => if p = "p1" then .error "boom" else .ok "Yes. Confidence: 80%"⟩

/-- A decoded combined-response record carrying parameter, verdict and
confidence but no reasoning field. -/
def entryMissingReasoning : JEntry :=
  .obj [("parameter", "p1"), ("verdict", "Yes"), ("confidence", "80%")]

/-- A readable file whose combined response would decode and answer Yes for p1,
while its single-criterion call answers No. -/
def envC8 : FileEnv :=
  ⟨true,
    fun _ => .parsed
      [JEntry.obj [("parameter", "p1"), ("verdict", "Yes"), ("confidence", "90%"), ("reasoning", "ok")]],
    fun _ => .ok "No."⟩

/-- An override table mentioning only a criterion that is never requested. -/
def cpOther : Option (List (String × String)) :=
  some [("other", "X")]

/-- A readable file whose pipeline succeeds through per-criterion mode with a
fully affirmative answer. -/
def okStreamEnv : FileEnv :=
  ⟨true, fun _ => .decodeFail, fun _ => .ok "Yes, 100%"⟩

/-- Three files submitted to the streaming endpoint. -/
def files3 : List (String × FileEnv) :=
  [("f0", okStreamEnv), ("f1", okStreamEnv), ("f2", okStreamEnv)]

/-- A job in the processing state with no elapsed time written yet. -/
def jobProc : JobState :=
  ⟨"processing", 5, 2, 0, none, none, none, 0, none, none⟩

/-- A job table holding the single processing job. -/
def store0 : JobStore :=
  [("j", jobProc)]

/-! ## Helper lemmas -/

theorem containsSub_iff (pat : List Char) : ∀ l, containsSub pat l = true ↔ pat <:+: l := by
  intro l
  induction l with
  | nil => simp [containsSub, List.infix_nil, List.isEmpty_iff]
  | cons c cs ih =>
    simp [containsSub, List.infix_cons_iff, List.isPrefixOf_iff_prefix, ih]

theorem dropWhile_append_all {p : Char → Bool} :
    ∀ l1 l2 : List Char, (∀ c ∈ l1, p c = true) →
      List.dropWhile p (l1 ++ l2) = List.dropWhile p l2 := by
  intro l1
  induction l1 with
  | nil => simp
  | cons c cs ih =>
    intro l2 h
    have hc : p c = true := h c (by simp)
    simp [List.dropWhile_cons, hc]
    exact ih l2 (fun d hd => h d (by simp [hd]))

theorem hasPercent_mem {l : List Char} (h : hasPercentPattern l) : '%' ∈ l := by
  obtain ⟨p, ds, q, rfl, _, _⟩ := h
  simp

theorem not_hasPercent_digits {ds : List Char} (h : ∀ c ∈ ds, c.isDigit = true) :
    ¬ hasPercentPattern ds := by
  intro hp
  have := h '%' (hasPercent_mem hp)
  exact absurd this (by decide)

theorem findPercent_cons (c : Char) (cs : List Char) :
    findPercent (c :: cs) =
      if c.isDigit ∧ ((c :: cs).dropWhile Char.isDigit).head? = some '%' then
        some ((c :: cs).takeWhile Char.isDigit)
      else findPercent cs := rfl

theorem findPercent_none : ∀ l : List Char, findPercent l = none → ¬ hasPercentPattern l := by
  intro l
  induction l with
  | nil =>
    intro _ h
    obtain ⟨p, ds, q, heq, hne, _⟩ := h
    simp at heq
  | cons c cs ih =>
    intro hf h
    by_cases hcond : c.isDigit ∧ ((c :: cs).dropWhile Char.isDigit).head? = some '%'
    · rw [findPercent_cons, if_pos hcond] at hf
      exact absurd hf (by simp)
    · rw [findPercent_cons, if_neg hcond] at hf
      obtain ⟨p, ds, q, heq, hne, hdig⟩ := h
      cases p with
      | cons a p2 =>
        rw [List.cons_append, List.cons_append] at heq
        injection heq with h1 h2
        exact ih hf ⟨p2, ds, q, by simpa using h2, hne, hdig⟩
      | nil =>
        cases ds with
        | nil => exact hne rfl
        | cons d ds2 =>
          rw [List.nil_append, List.cons_append] at heq
          injection heq with h1 h2
          have hcd : c.isDigit = true := h1 ▸ hdig d (by simp)
          have hdw : (c :: cs).dropWhile Char.isDigit = '%' :: q := by
            have hrw : c :: cs = (d :: ds2) ++ '%' :: q := by
              rw [List.cons_append]
              exact h1 ▸ h2 ▸ rfl
            rw [hrw, dropWhile_append_all _ _ hdig]
            simp [List.dropWhile_cons]
          exact hcond ⟨hcd, by rw [hdw]; rfl⟩

theorem findPercent_some : ∀ l ds : List Char, findPercent l = some ds →
    ∃ p q, l = p ++ ds ++ '%' :: q ∧ ds ≠ [] ∧ (∀ c ∈ ds, c.isDigit = true) ∧
      ¬ hasPercentPattern (p ++ ds) := by
  intro l
  induction l with
  | nil => intro ds h; simp [findPercent] at h
  | cons c cs ih =>
    intro ds hf
    by_cases hcond : c.isDigit ∧ ((c :: cs).dropWhile Char.isDigit).head? = some '%'
    · rw [findPercent_cons, if_pos hcond] at hf
      have hds : (c :: cs).takeWhile Char.isDigit = ds := by injection hf
      have hdw : (c :: cs).dropWhile Char.isDigit =
          '%' :: ((c :: cs).dropWhile Char.isDigit).tail := by
        cases hd : (c :: cs).dropWhile Char.isDigit with
        | nil => rw [hd] at hcond; simp at hcond
        | cons x xs =>
          rw [hd] at hcond
          have hx : x = '%' := by simpa using hcond.2
          simp [hx]
      refine ⟨[], ((c :: cs).dropWhile Char.isDigit).tail, ?_, ?_, ?_, ?_⟩
      · rw [List.nil_append, ← hds, ← hdw]
        exact (List.takeWhile_append_dropWhile Char.isDigit (c :: cs)).symm
      · rw [← hds]
        simp [List.takeWhile_cons, hcond.1]
      · intro x hx
        rw [← hds] at hx
        exact List.mem_takeWhile_imp hx
      · rw [List.nil_append, ← hds]
        exact not_hasPercent_digits (fun x hx => List.mem_takeWhile_imp hx)
    · rw [findPercent_cons, if_neg hcond] at hf
      obtain ⟨p2, q, heq, hne, hdig, hnp⟩ := ih ds hf
      refine ⟨c :: p2, q, by simp [heq], hne, hdig, ?_⟩
      intro hp
      obtain ⟨p3, ds3, q3, heq3, hne3, hdig3⟩ := hp
      cases p3 with
      | cons a p4 =>
        rw [List.cons_append, List.cons_append, List.cons_append] at heq3
        injection heq3 with h1 h2
        exact hnp ⟨p4, ds3, q3, by simpa using h2, hne3, hdig3⟩
      | nil =>
        cases ds3 with
        | nil => exact hne3 rfl
        | cons d ds4 =>
          rw [List.nil_append, List.cons_append, List.cons_append] at heq3
          injection heq3 with h1 h2
          have hcd : c.isDigit = true := h1 ▸ hdig3 d (by simp)
          have hcs : cs = (ds4 ++ '%' :: q3) ++ '%' :: q := by
            rw [heq, h2]
          have hrw : c :: cs = (d :: ds4) ++ '%' :: (q3 ++ '%' :: q) := by
            rw [h1, hcs]
            simp [List.append_assoc]
          have hpd : Char.isDigit '%' = false := by decide
          have hdw : (c :: cs).dropWhile Char.isDigit = '%' :: (q3 ++ '%' :: q) := by
            rw [hrw, dropWhile_append_all _ _ hdig3, List.dropWhile_cons]
            simp [hpd]
          exact hcond ⟨hcd, by rw [hdw]; rfl⟩

theorem mk_percent_ne_NA (ds : List Char) : String.mk (ds ++ ['%']) ≠ "N/A" := by
  intro h
  have hd : ds ++ ['%'] = "N/A".data := congrArg String.data h
  have hl := congrArg List.getLast? hd
  rw [List.getLast?_append] at hl
  simp at hl

theorem parseResponse_fst (t : String) :
    (parseResponse t).1 =
      if containsSub "yes".data (lowerChars t.data) then "Yes"
      else if containsSub "no".data (lowerChars t.data) then "No"
      else "Unknown" := rfl

theorem parseResponse_conf (t : String) :
    (parseResponse t).2.1 =
      match findPercent t.data with
      | some ds => String.mk (ds ++ ['%'])
      | none => "N/A" := rfl

/-- C6: single-criterion parsing determines the outcome by a case-insensitive
substring scan with "yes" taking precedence over "no" (a text containing "yes"
is Affirmative, otherwise a text containing "no" is Negative, otherwise
Indeterminate), and the confidence is the digit run of the first
digits-then-percent occurrence in the text ("N/A" when there is none): the
extracted run is a maximal digit run immediately followed by a percent sign,
with no such occurrence completed strictly before it. -/
theorem c6_single_parse (t : String) :
    ((parseResponse t).1 = "Yes" ↔ "yes".data <:+: lowerChars t.data) ∧
    ((parseResponse t).1 = "No" ↔
      (¬ "yes".data <:+: lowerChars t.data ∧ "no".data <:+: lowerChars t.data)) ∧
    ((parseResponse t).1 = "Unknown" ↔
      (¬ "yes".data <:+: lowerChars t.data ∧ ¬ "no".data <:+: lowerChars t.data)) ∧
    ((parseResponse t).2.1 = "N/A" ↔ ¬ hasPercentPattern t.data) ∧
    (∀ ds, findPercent t.data = some ds →
      (parseResponse t).2.1 = String.mk (ds ++ ['%']) ∧
      ∃ p q, t.data = p ++ ds ++ '%' :: q ∧ ds ≠ [] ∧ (∀ c ∈ ds, c.isDigit = true) ∧
        ¬ hasPercentPattern (p ++ ds)) := by
  have hy := containsSub_iff "yes".data (lowerChars t.data)
  have hn := containsSub_iff "no".data (lowerChars t.data)
  refine ⟨?_, ?_, ?_, ?_, ?_⟩
  · rw [parseResponse_fst]
    by_cases h1 : containsSub "yes".data (lowerChars t.data) <;>
      by_cases h2 : containsSub "no".data (lowerChars t.data) <;>
        simp +decide [h1, h2, ← hy, ← hn]
  · rw [parseResponse_fst]
    by_cases h1 : containsSub "yes".data (lowerChars t.data) <;>
      by_cases h2 : containsSub "no".data (lowerChars t.data) <;>
        simp +decide [h1, h2, ← hy, ← hn]
  · rw [parseResponse_fst]
    by_cases h1 : containsSub "yes".data (lowerChars t.data) <;>
      by_cases h2 : containsSub "no".data (lowerChars t.data) <;>
        simp +decide [h1, h2, ← hy, ← hn]
  · rw [parseResponse_conf]
    cases hfp : findPercent t.data with
    | none =>
      simp
      exact findPercent_none t.data hfp
    | some ds =>
      obtain ⟨p, q, heq, hne, hdig, _⟩ := findPercent_some t.data ds hfp
      constructor
      · intro h
        exact absurd h (mk_percent_ne_NA ds)
      · intro h
        exact absurd ⟨p, ds, q, heq, hne, hdig⟩ h
  · intro ds hfp
    refine ⟨?_, findPercent_some t.data ds hfp⟩
    rw [parseResponse_conf, hfp]

/-- Witness instantiating `c6_single_parse` at a concrete oracle reply. -/
theorem c6_single_parse_witness :
    (parseResponse "Yes: 80%").2.1 = String.mk (['8', '0'] ++ ['%']) ∧
    ∃ p q, "Yes: 80%".data = p ++ ['8', '0'] ++ '%' :: q ∧ (['8', '0'] : List Char) ≠ [] ∧
      (∀ c ∈ (['8', '0'] : List Char), c.isDigit = true) ∧
      ¬ hasPercentPattern (p ++ ['8', '0']) :=
  (c6_single_parse "Yes: 80%").2.2.2.2 ['8', '0'] (by decide)

theorem parseDecimal_int (s : String) (ip : List Char)
    (h : decimalParts? s = some (false, ip, [])) :
    parseDecimal? s = some ((digitsVal ip : ℕ) : ℚ) := by
  simp [parseDecimal?, h, decimalVal, digitsVal]

theorem scoreStep_foldl : ∀ (rs : List ARecord) (t : ℚ) (v : ℕ),
    rs.foldl scoreStep (t, v) =
      (t + ((rs.filter (fun r => r.verdict = "Yes" ∨ r.verdict = "No")).map
          (fun r => if r.verdict = "Yes" then confidencePct r else 0)).sum,
        v + (rs.filter (fun r => r.verdict = "Yes" ∨ r.verdict = "No")).length) := by
  intro rs
  induction rs with
  | nil => intro t v; simp
  | cons r rs ih =>
    intro t v
    by_cases hYes : r.verdict = "Yes"
    · cases hp : parseDecimal? (removePercent r.confidence) with
      | some c =>
        simp [List.foldl_cons, scoreStep, hYes, hp, List.filter_cons, ih, confidencePct]
        constructor
        · ring
        · omega
      | none =>
        simp [List.foldl_cons, scoreStep, hYes, hp, List.filter_cons, ih, confidencePct]
        constructor
        · ring
        · omega
    · by_cases hNo : r.verdict = "No"
      · simp [List.foldl_cons, scoreStep, hYes, hNo, List.filter_cons, ih]
        omega
      · simp [List.foldl_cons, scoreStep, hYes, hNo, List.filter_cons, ih]

theorem scoreStep_foldl_zero (rs : List ARecord) :
    rs.foldl scoreStep (0, 0) =
      (((rs.filter (fun r => r.verdict = "Yes" ∨ r.verdict = "No")).map
          (fun r => if r.verdict = "Yes" then confidencePct r else 0)).sum,
        (rs.filter (fun r => r.verdict = "Yes" ∨ r.verdict = "No")).length) := by
  have h := scoreStep_foldl rs 0 0
  simpa using h

/-- C3: the per-file score equals the arithmetic mean, over Affirmative ("Yes")
and Negative ("No") verdicts only, of the parsed confidence percentage for
Affirmative verdicts (100 when the confidence string does not parse) and 0 for
Negative verdicts; Indeterminate verdicts are excluded from numerator and
denominator, an empty verdict list scores 0, and the concrete list
[Affirmative at "80%", Negative, Indeterminate] scores exactly 40. -/
theorem c3_score_rule :
    (∀ rs, calculateOverallScore rs = scoreSpec rs) ∧
    calculateOverallScore [] = 0 ∧
    calculateOverallScore
      [⟨"greeting", "Yes", "80%", "ok"⟩, ⟨"empathy", "No", "N/A", "bad"⟩,
        ⟨"clarity", "Unknown", "N/A", "unclear"⟩] = 40 := by
  have hmain : ∀ rs, calculateOverallScore rs = scoreSpec rs := by
    intro rs
    by_cases hemp : rs.isEmpty
    · rw [List.isEmpty_iff] at hemp
      subst hemp
      simp [calculateOverallScore, scoreSpec]
    · rw [calculateOverallScore, if_neg hemp, scoreStep_foldl_zero, scoreSpec]
      by_cases hfe : rs.filter (fun r => r.verdict = "Yes" ∨ r.verdict = "No") = []
      · rw [hfe]
        simp
      · rw [if_pos (List.length_pos.mpr hfe), if_neg (fun hok => hfe (List.isEmpty_iff.mp hok))]
  refine ⟨hmain, by simp [calculateOverallScore], ?_⟩
  have h1 : parseDecimal? (removePercent "80%") = some 80 := by
    rw [parseDecimal_int _ ['8', '0'] (by decide)]
    have h : digitsVal ['8', '0'] = 80 := by decide
    rw [h]
    norm_num
  have h2 : parseDecimal? (removePercent "N/A") = none := by
    have h : decimalParts? (removePercent "N/A") = none := by decide
    simp [parseDecimal?, h]
  simp [calculateOverallScore, List.foldl, scoreStep, h1, h2]
  norm_num

/-- C10: for a non-empty verdict list whose outcomes are all neither Affirmative
nor Negative, the score computation returns 0 rather than dividing by zero: the
division is guarded by a positive count of Yes/No verdicts. -/
theorem c10_all_indeterminate_zero (rs : List ARecord) (hne : rs ≠ [])
    (h : ∀ r ∈ rs, r.verdict ≠ "Yes" ∧ r.verdict ≠ "No") :
    calculateOverallScore rs = 0 := by
  have hfil : rs.filter (fun r => r.verdict = "Yes" ∨ r.verdict = "No") = [] := by
    rw [List.filter_eq_nil_iff]
    intro a ha
    simp [(h a ha).1, (h a ha).2]
  rw [calculateOverallScore, if_neg (by simp [List.isEmpty_iff, hne]), scoreStep_foldl_zero, hfil]
  simp

/-- Witness instantiating `c10_all_indeterminate_zero` on a one-element
all-Indeterminate verdict list. -/
theorem c10_witness : calculateOverallScore [⟨"greeting", "Unknown", "N/A", ""⟩] = 0 :=
  c10_all_indeterminate_zero [⟨"greeting", "Unknown", "N/A", ""⟩] (by decide) (by decide)

theorem auditParameter_parameter (env : FileEnv) (p : String) :
    (auditParameter env p).parameter = p := by
  cases h : env.single p <;> simp [auditParameter, h]

theorem map_parameter_auditParameter (env : FileEnv) : ∀ params : List String,
    (params.map (auditParameter env)).map ARecord.parameter = params := by
  intro params
  induction params with
  | nil => rfl
  | cons p ps ih => simp [auditParameter_parameter, ih]

theorem map_parameter_errorRecords (params : List String) (msg : String) :
    (errorRecords params msg).map ARecord.parameter = params := by
  induction params with
  | nil => rfl
  | cons p ps ih => simpa [errorRecords] using ih

theorem map_parameter_missingPlaceholder : ∀ l : List String,
    (l.map missingPlaceholder).map ARecord.parameter = l := by
  intro l
  induction l with
  | nil => rfl
  | cons p ps ih => simp [missingPlaceholder, ih]

theorem hasKey_obj (fs : List (String × String)) (k : String) :
    JEntry.hasKey (JEntry.obj fs) k = (fs.map Prod.fst).contains k := by
  show fs.any (fun kv => kv.1 == k) = (fs.map Prod.fst).contains k
  induction fs with
  | nil => rfl
  | cons kv fs ih =>
    simp only [List.any_cons, List.map_cons, List.contains_cons] at ih ⊢
    rw [ih]
    congr 1
    exact Bool.beq_comm

theorem mem_fillMissing (params : List String) (formatted : List ARecord) (p : String)
    (hp : p ∈ params) : p ∈ (fillMissing params formatted).map ARecord.parameter := by
  rw [fillMissing, List.map_append]
  by_cases hc : (formatted.map ARecord.parameter).contains p
  · exact List.mem_append_left _ (List.elem_iff.mp hc)
  · apply List.mem_append_right
    rw [map_parameter_missingPlaceholder]
    refine List.mem_filter.mpr ⟨hp, ?_⟩
    rw [Bool.not_eq_true] at hc
    rw [hc]
    rfl

theorem auditFileOptimized_ok_cases (env : FileEnv) (params : List String)
    (cp : Option (List (String × String))) (rs : List ARecord)
    (h : auditFileOptimized env params cp = .ok rs) :
    rs = params.map (auditParameter env) ∨
    ∃ es, env.combinedCall (getCombinedPrompt params) = .parsed es ∧
      rs = fillMissing params (formatResults es) := by
  rw [auditFileOptimized] at h
  cases hr : env.readable with
  | false =>
    rw [hr] at h
    simp [auditFile, hr] at h
  | true =>
    rw [hr] at h
    simp only [if_true] at h
    by_cases hcp : truthyPrompts cp
    · rw [if_pos hcp, auditFile, hr, if_pos rfl] at h
      injection h with h2
      exact Or.inl h2.symm
    · rw [if_neg hcp] at h
      cases hcc : env.combinedCall (getCombinedPrompt params) with
      | callFail m =>
        rw [hcc, auditFile, hr, if_pos rfl] at h
        injection h with h2
        exact Or.inl h2.symm
      | decodeFail =>
        rw [hcc, auditFile, hr, if_pos rfl] at h
        injection h with h2
        exact Or.inl h2.symm
      | parsed es =>
        rw [hcc] at h
        injection h with h2
        exact Or.inr ⟨es, rfl, h2.symm⟩

/-- C1 is refuted on the combined-success path: with requested criteria
[p1, p2] and a decoded combined response answering for p2 and an unrequested
p3 while omitting p1, the produced verdict sequence is [p2, p3, p1-placeholder]
-- three entries for two requested criteria, not in request order, keeping the
unrequested criterion -- instead of exactly one verdict per requested
criterion in request order. -/
theorem c1_counterexample :
    (auditMultipleFilesParallel [envC1] ["p1", "p2"] none).map
        (fun rs => rs.map ARecord.parameter) = [["p2", "p3", "p1"]] ∧
    (["p2", "p3", "p1"] : List String) ≠ ["p1", "p2"] := by decide

/-- C1 (amended): every batch run yields exactly one result list per submitted
file, aligned to submission order, and every requested criterion appears in
the verdict sequence of each file (missing criteria are filled with Unknown
placeholders, never dropped); but on the combined-success path the sequence
follows response order and may carry duplicate or unrequested criteria, so
exactly-one-per-criterion in request order holds only on the fallback and
whole-file-error paths. -/
theorem c1_amended_shape (envs : List FileEnv) (params : List String)
    (cp : Option (List (String × String))) :
    (auditMultipleFilesParallel envs params cp).length = envs.length ∧
    ∀ rs ∈ auditMultipleFilesParallel envs params cp, ∀ p ∈ params,
      p ∈ rs.map ARecord.parameter := by
  constructor
  · simp [auditMultipleFilesParallel]
  · intro rs hrs p hp
    rw [auditMultipleFilesParallel, List.mem_map] at hrs
    obtain ⟨env, _, rfl⟩ := hrs
    cases hres : auditFileOptimized env params cp with
    | error e =>
      rw [map_parameter_errorRecords]
      exact hp
    | ok rs2 =>
      rcases auditFileOptimized_ok_cases env params cp rs2 hres with hper | ⟨es, _, hfill⟩
      · rw [hper, map_parameter_auditParameter]
        exact hp
      · rw [hfill]
        exact mem_fillMissing params (formatResults es) p hp

/-- Witness instantiating `c1_amended_shape` on one file whose combined
response omits criterion p1: p1 still appears, as a placeholder. -/
theorem c1_amended_witness :
    "p1" ∈ ([⟨"p2", "Yes", "90%", "ok"⟩, ⟨"p3", "Yes", "90%", "ok"⟩,
      ⟨"p1", "Unknown", "N/A", "Parameter not processed in combined response"⟩] :
        List ARecord).map ARecord.parameter :=
  (c1_amended_shape [envC1] ["p1", "p2"] none).2 _ (by decide) "p1" (by decide)

/-- C2 is refuted: a file whose read raises makes `audit_file_optimized` raise
past its boundary -- the outer handler calls `audit_file`, which re-reads,
fails again and re-raises (its own callers expect this: the fan-out coordinator
gathers with `return_exceptions=True`). -/
theorem c2_counterexample :
    isOkE (auditFileOptimized envUnreadable ["p1"] none) = false := by decide

/-- C2 (amended): `audit_file_optimized` returns a verdict list without raising
exactly when the file read succeeds; every oracle or decode failure degrades to
placeholders or falls back, but a failing file read propagates as an
exception. -/
theorem c2_amended_no_raise (env : FileEnv) (params : List String)
    (cp : Option (List (String × String))) :
    isOkE (auditFileOptimized env params cp) = env.readable := by
  cases hr : env.readable
  · simp [auditFileOptimized, hr, auditFile, isOkE]
  · by_cases hcp : truthyPrompts cp
    · simp [auditFileOptimized, hr, hcp, auditFile, isOkE]
    · cases hcc : env.combinedCall (getCombinedPrompt params) <;>
        simp [auditFileOptimized, hr, hcp, hcc, auditFile, isOkE]

/-- C4: whenever the combined call raises or its batch response fails to
decode, the pipeline falls back to per-criterion mode -- the result is exactly
one record per requested criterion, in request order, each produced by the
oracle call of that criterion alone: a failing call yields an Unknown
placeholder for that criterion only, and a succeeding call yields its parsed
verdict, so failure on one criterion never aborts the others. -/
theorem c4_fallback (env : FileEnv) (params : List String)
    (cp : Option (List (String × String)))
    (hre : env.readable = true)
    (hfail : (∃ m, env.combinedCall (getCombinedPrompt params) = .callFail m) ∨
      env.combinedCall (getCombinedPrompt params) = .decodeFail) :
    auditFileOptimized env params cp = .ok (params.map (auditParameter env)) ∧
    (∀ p e, env.single p = .error e →
      auditParameter env p = ⟨p, "Unknown", "N/A", "Error: " ++ e⟩) ∧
    (∀ p rawText, env.single p = .ok rawText →
      auditParameter env p = ⟨p, (parseResponse (pyStrip rawText)).1,
        (parseResponse (pyStrip rawText)).2.1, (parseResponse (pyStrip rawText)).2.2⟩) := by
  refine ⟨?_, ?_, ?_⟩
  · rcases hfail with ⟨m, hm⟩ | hd
    · by_cases hcp : truthyPrompts cp <;>
        simp [auditFileOptimized, hre, hm, hcp, auditFile]
    · by_cases hcp : truthyPrompts cp <;>
        simp [auditFileOptimized, hre, hd, hcp, auditFile]
  · intro p e hp
    simp [auditParameter, hp]
  · intro p rawText hp
    simp [auditParameter, hp]

/-- Witness instantiating `c4_fallback`: combined decode fails, the p1 call
fails and the p2 call succeeds. -/
theorem c4_fallback_witness :
    auditFileOptimized envFallback ["p1", "p2"] none =
      .ok (["p1", "p2"].map (auditParameter envFallback)) :=
  (c4_fallback envFallback ["p1", "p2"] none rfl (Or.inr rfl)).1

/-- C5 is refuted: a decoded record carrying the criterion identifier, the
outcome and the confidence but no rationale field is discarded by the
batch-mode filter, because the filter also requires the reasoning key. -/
theorem c5_counterexample :
    keepRecord entryMissingReasoning = false ∧
    formatResults [entryMissingReasoning] = [] := by decide

/-- C5 (amended): a decoded record is kept if and only if it is an object whose
field names include all four of parameter, verdict, confidence and reasoning;
the rationale field is required like the others, and the default-empty fallback
for it can never fire. -/
theorem c5_amended_required_fields :
    (∀ fs : List (String × String),
      keepRecord (JEntry.obj fs) =
        ((fs.map Prod.fst).contains "parameter" && (fs.map Prod.fst).contains "verdict" &&
          (fs.map Prod.fst).contains "confidence" && (fs.map Prod.fst).contains "reasoning")) ∧
    keepRecord JEntry.notDict = false := by
  refine ⟨fun fs => ?_, rfl⟩
  simp [keepRecord, hasKey_obj]

/-- C8 is refuted: with an override table that mentions only a never-requested
criterion, no requested criterion is overridden, yet combined mode is skipped
-- the result is the per-criterion one (No from the single call), not the
combined one (Yes from the decoded response) -- because the code only tests
the truthiness of the table. -/
theorem c8_counterexample :
    auditFileOptimized envC8 ["p1"] cpOther = auditFile envC8 ["p1"] cpOther ∧
    auditFileOptimized envC8 ["p1"] cpOther ≠
      .ok (fillMissing ["p1"] (formatResults
        [JEntry.obj [("parameter", "p1"), ("verdict", "Yes"), ("confidence", "90%"),
          ("reasoning", "ok")]])) ∧
    (["p1"].all (fun p => !([("other", "X")].any (fun kv => kv.1 == p)))) = true := by decide

/-- C8 (amended): combined mode is skipped if and only if the externally
supplied override table is present and non-empty, whether or not it mentions
any requested criterion; with no override table (or an empty one) the single
combined call is attempted. -/
theorem c8_amended_skip_iff (env : FileEnv) (params : List String)
    (cp : Option (List (String × String))) (hre : env.readable = true) :
    (truthyPrompts cp = true → auditFileOptimized env params cp = auditFile env params cp) ∧
    (truthyPrompts cp = false →
      ∀ es, env.combinedCall (getCombinedPrompt params) = .parsed es →
        auditFileOptimized env params cp = .ok (fillMissing params (formatResults es))) := by
  constructor
  · intro ht
    simp [auditFileOptimized, hre, ht]
  · intro ht es hes
    simp [auditFileOptimized, hre, ht, hes]

/-- Witness instantiating `c8_amended_skip_iff` on the override table that
names only an unrequested criterion. -/
theorem c8_amended_witness :
    auditFileOptimized envC8 ["p1"] cpOther = auditFile envC8 ["p1"] cpOther :=
  (c8_amended_skip_iff envC8 ["p1"] cpOther rfl).1 rfl

theorem filterMap_nil_of {α β : Type} (f : α → Option β) :
    ∀ l : List α, (∀ a ∈ l, f a = none) → l.filterMap f = [] := by
  intro l h
  exact List.filterMap_eq_nil_iff.mpr h

theorem filterMap_eq_map_of {α β : Type} (f : α → Option β) (g : α → β) :
    ∀ l : List α, (∀ a ∈ l, f a = some (g a)) → l.filterMap f = l.map g := by
  intro l
  induction l with
  | nil => intro _; rfl
  | cons a l ih =>
    intro h
    rw [List.filterMap_cons, h a (by simp), List.map_cons, ih (fun b hb => h b (by simp [hb]))]

/-- C7 is refuted: for three files where the file at index 1 finishes first
(completion order [1, 0, 2]), the first per-file resolution event emitted is
for index 0, not index 1 -- the generator awaits the concurrently running
tasks in submission order, so resolution events are emitted in submission
order, never completion order. -/
theorem c7_counterexample :
    firstResolution (generateProgressStream "batch" files3 ["greeting"] none [1, 0, 2]) =
      some (SEvent.fileCompleted 0 "f0" 100) := by
  have hpr : auditFileOptimized okStreamEnv ["greeting"] none =
      .ok [⟨"greeting", "Yes", "100%", "Yes, 100%"⟩] := by decide
  have h1 : parseDecimal? (removePercent "100%") = some 100 := by
    rw [parseDecimal_int _ ['1', '0', '0'] (by decide)]
    have h : digitsVal ['1', '0', '0'] = 100 := by decide
    rw [h]
    norm_num
  have hsc : calculateOverallScore [⟨"greeting", "Yes", "100%", "Yes, 100%"⟩] = 100 := by
    simp [calculateOverallScore, List.foldl, scoreStep, h1]
  simp [generateProgressStream, files3, firstResolution, List.find?, isResolution,
    resIdx?, resolutionEvent, hpr, hsc, List.enum, List.enumFrom]

/-- C7 (amended): the event stream is, for every completion schedule, the same
sequence: one `started` event, then one `file_started` per file in submission
order, then one resolution event (`file_completed` or `file_error`) per file in
submission order -- not completion order -- and finally a single terminal
`completed` event. -/
theorem c7_amended_order (auditId : String) (files : List (String × FileEnv))
    (params : List String) (cp : Option (List (String × String))) (ord : List ℕ) :
    (∀ ord2, generateProgressStream auditId files params cp ord =
      generateProgressStream auditId files params cp ord2) ∧
    (generateProgressStream auditId files params cp ord).filterMap resIdx? =
      List.range files.length ∧
    (generateProgressStream auditId files params cp ord).filterMap startIdx? =
      List.range files.length ∧
    (generateProgressStream auditId files params cp ord).head? =
      some (SEvent.started auditId files.length params.length) ∧
    (generateProgressStream auditId files params cp ord).getLast? =
      some (SEvent.completed files.length files.length) := by
  have hA : (files.enum.map (fun p => SEvent.fileStarted p.1 p.2.1
      ((p.1 : ℚ) / (files.length : ℚ) * 100))).filterMap resIdx? = [] := by
    rw [List.filterMap_map]
    apply filterMap_nil_of
    intro a _
    rfl
  have hB : (files.enum.map (fun p => resolutionEvent params cp p.1 p.2)).filterMap resIdx? =
      List.range files.length := by
    rw [List.filterMap_map,
      filterMap_eq_map_of _ Prod.fst _ ?_, List.enum_map_fst]
    intro a _
    show resIdx? (resolutionEvent params cp a.1 a.2) = some a.1
    cases hc : auditFileOptimized a.2.2 params cp <;> simp [resolutionEvent, hc, resIdx?]
  have hC : (files.enum.map (fun p => resolutionEvent params cp p.1 p.2)).filterMap startIdx? =
      [] := by
    rw [List.filterMap_map]
    apply filterMap_nil_of
    intro a _
    show startIdx? (resolutionEvent params cp a.1 a.2) = none
    cases hc : auditFileOptimized a.2.2 params cp <;> simp [resolutionEvent, hc, startIdx?]
  have hD : (files.enum.map (fun p => SEvent.fileStarted p.1 p.2.1
      ((p.1 : ℚ) / (files.length : ℚ) * 100))).filterMap startIdx? =
      List.range files.length := by
    rw [List.filterMap_map,
      filterMap_eq_map_of _ Prod.fst _ ?_, List.enum_map_fst]
    intro a _
    rfl
  refine ⟨fun _ => rfl, ?_, ?_, rfl, ?_⟩
  · show (SEvent.started auditId files.length params.length ::
      (_ ++ (_ ++ [SEvent.completed files.length files.length]))).filterMap resIdx? = _
    rw [List.filterMap_cons]
    simp only [resIdx?]
    rw [List.filterMap_append, List.filterMap_append, hA, hB]
    simp [resIdx?]
  · show (SEvent.started auditId files.length params.length ::
      (_ ++ (_ ++ [SEvent.completed files.length files.length]))).filterMap startIdx? = _
    rw [List.filterMap_cons]
    simp only [startIdx?]
    rw [List.filterMap_append, List.filterMap_append, hD, hC]
    simp [startIdx?]
  · show (SEvent.started auditId files.length params.length ::
      (_ ++ (_ ++ [SEvent.completed files.length files.length]))).getLast? = _
    rw [show (SEvent.started auditId files.length params.length ::
      (files.enum.map (fun p => SEvent.fileStarted p.1 p.2.1
        ((p.1 : ℚ) / (files.length : ℚ) * 100)) ++
        ((files.enum.map (fun p => resolutionEvent params cp p.1 p.2)) ++
          [SEvent.completed files.length files.length]))) =
      ((SEvent.started auditId files.length params.length ::
        (files.enum.map (fun p => SEvent.fileStarted p.1 p.2.1
          ((p.1 : ℚ) / (files.length : ℚ) * 100)) ++
          (files.enum.map (fun p => resolutionEvent params cp p.1 p.2)))) ++
        [SEvent.completed files.length files.length]) by simp]
    exact List.getLast?_concat _

theorem find?_setJob (st : JobStore) (id id2 : String) (j : JobState) :
    List.find? (fun kv => kv.1 == id2) (setJob st id j) =
      (List.find? (fun kv => kv.1 == id2) st).map
        (fun kv => if kv.1 == id then (kv.1, j) else kv) := by
  have hpf : ((fun kv : String × JobState => kv.1 == id2) ∘
      (fun kv => if kv.1 == id then (kv.1, j) else kv)) = (fun kv => kv.1 == id2) := by
    funext kv
    show ((if (kv.1 == id) = true then (kv.1, j) else kv).1 == id2) = (kv.1 == id2)
    cases h : kv.1 == id <;> simp [h]
  rw [setJob, List.find?_map, hpf]

theorem lookup_setJob_self (st : JobStore) (id : String) (j : JobState) :
    lookupJob (setJob st id j) id = (lookupJob st id).map (fun _ => j) := by
  rw [lookupJob, find?_setJob, lookupJob]
  cases h : List.find? (fun kv => kv.1 == id) st with
  | none => rfl
  | some kv =>
    have hp : kv.1 = id := by simpa using List.find?_some h
    simp [hp]

theorem lookup_setJob_other (st : JobStore) (id id2 : String) (j : JobState)
    (h : id2 ≠ id) : lookupJob (setJob st id j) id2 = lookupJob st id2 := by
  rw [lookupJob, find?_setJob, lookupJob]
  cases hf : List.find? (fun kv => kv.1 == id2) st with
  | none => rfl
  | some kv =>
    have h2 : kv.1 = id2 := by simpa using List.find?_some hf
    have h3 : (kv.1 == id) = false := by
      rw [beq_eq_false_iff_ne, h2]
      exact h
    simp [h3]
    rw [h2, if_neg h]

/-- C9 is refuted: polling the status of a Processing job mutates the stored
job record -- the handler writes the live elapsed time into the processing_time
field of the shared dict entry, so the job table after the poll differs from
the table before it. -/
theorem c9_counterexample : (getAuditStatus store0 "j" 5).2 ≠ store0 := by
  simp [getAuditStatus, lookupJob, store0, jobProc, setJob, List.find?]

/-- C9 (amended): `get_audit_result` never mutates the job table, and
`get_audit_status` mutates it only when the polled job is Processing, and then
only the processing_time field of that job (set to now minus its start time): every
other job id reads back unchanged, and a poll of an unknown or finished job
leaves the table identical. -/
theorem c9_amended_frame (st : JobStore) (id : String) (now : ℚ) :
    (getAuditResult st id).2 = st ∧
    (lookupJob st id = none → (getAuditStatus st id now).2 = st) ∧
    (∀ j, lookupJob st id = some j → j.status ≠ "processing" →
      (getAuditStatus st id now).2 = st) ∧
    (∀ j, lookupJob st id = some j → j.status = "processing" →
      (getAuditStatus st id now).2 =
        setJob st id { j with processingTime := some (now - j.startedAt) } ∧
      lookupJob (getAuditStatus st id now).2 id =
        some { j with processingTime := some (now - j.startedAt) } ∧
      ∀ id2, id2 ≠ id → lookupJob (getAuditStatus st id now).2 id2 = lookupJob st id2) := by
  refine ⟨?_, ?_, ?_, ?_⟩
  · rw [getAuditResult]
    cases h : lookupJob st id with
    | none => simp [h]
    | some job =>
      by_cases hs : job.status = "completed"
      · cases hres : job.results <;> simp [h, hs, hres]
      · simp [h, hs]
  · intro h
    simp [getAuditStatus, h]
  · intro j hj hs
    simp [getAuditStatus, hj, hs]
  · intro j hj hs
    have hstat : (getAuditStatus st id now).2 =
        setJob st id { j with processingTime := some (now - j.startedAt) } := by
      simp [getAuditStatus, hj, hs]
    refine ⟨hstat, ?_, ?_⟩
    · rw [hstat, lookup_setJob_self, hj]
      rfl
    · intro id2 h2
      rw [hstat, lookup_setJob_other st id id2 _ h2]

/-- Witness instantiating `c9_amended_frame` on the single-job table: after the
poll, the stored record carries the freshly computed elapsed time. -/
theorem c9_amended_witness :
    lookupJob (getAuditStatus store0 "j" 5).2 "j" =
      some { jobProc with processingTime := some ((5 : ℚ) - jobProc.startedAt) } :=
  ((c9_amended_frame store0 "j" 5).2.2.2 jobProc rfl rfl).2.1

end AudifyAI
